import Mathlib

/-!
Shallow embedding of the reactive tabu-search TSP core of the repository
(Exercise2: TSPSolver.cpp / TSPSolution.cpp / TSP.h), together with proofs
settling the specification claims about it.

Modelling conventions:
* C++ `double` values are modelled as rationals (`ℚ`); `1e10` (the TSP
  `infinite` sentinel) is `10 ^ 10`, `std::numeric_limits<double>::max()` is
  `10 ^ 308`.
* A `TSPSolution` is its `sequence` field, a `List Nat` of node indices.
* The cost matrix `tsp.cost` is a total function `Nat → Nat → ℚ`; out-of-range
  accesses (undefined behaviour in C++) read an arbitrary total extension.
* `std::deque` (tabu list) is a `List` with `push_back` = append at the end
  and `pop_front` = `tail`.
* `frequency_matrix` is a total function `Nat → Nat → Nat` (the C++ matrix is
  always `n × n`; the instance size `n` is carried separately).
* `rand()` is modelled by an explicit stream of naturals (`rng : List Nat`)
  consumed one value per `rand()` call; `rand() % k` becomes `headD 0 % k`.
* Wall-clock time (`time_elapsed` in the search statistics) is not modelled
  and recorded as `0`; it influences nothing in the search.
* The `while (!stop)` search loop is modelled by structural recursion on an
  explicit fuel argument; `solveWithTabuSearch` supplies fuel
  `2 * max_iterations + 2`, which is proved sufficient (the loop always
  returns through one of its stopping branches, never by fuel exhaustion).
* The visualization snapshot call (`BoardVisualizer::saveKeySnapshots`) only
  performs I/O and touches no solver state; it is omitted.
* The C++ `Move` constructor defaults `from`/`to` to `-1` in the sentinel
  move; those fields of a sentinel are never read by the solver, and the
  model uses `0` (fields are `Nat`).  `from` is a Lean keyword, so the field
  is named `from_`.
-/

namespace TabuTSP

/-- TSP instance: node count, cost matrix, and the `infinite` sentinel value
(TSP.h: `TSP() : n(0), infinite(1e10)`). -/
structure TSP where
  n : Nat
  cost : Nat → Nat → ℚ
  infinite : ℚ

/-- A 2-opt move: two sequence positions and the precomputed cost change
(TSPSolver.h, struct Move). -/
structure Move where
  from_ : Nat
  to_ : Nat
  cost_change : ℚ
deriving DecidableEq, Repr

/-- Move-history record (TSPSolver.h, struct MoveFrequency); default values
from the C++ default constructor `from(-1), to(-1), frequency(0),
avg_improvement(0.0)`.  The `from`/`to` fields are never written by the
solver. -/
structure MoveFreq where
  from_ : Int
  to_ : Int
  frequency : Nat
  avg_improvement : ℚ
deriving DecidableEq, Repr

/-- One entry of `search_history` (TSPSolver.h, struct SearchStats). -/
structure SearchStats where
  iteration : Nat
  solution_value : ℚ
  current_tenure : Nat
  was_improvement : Bool
  improvement_percentage : ℚ
  time_elapsed : ℚ
deriving DecidableEq, Repr

/-- TSPSolver constant MAX_ITERATIONS_WITHOUT_IMPROVEMENT = 100. -/
def MAX_ITERATIONS_WITHOUT_IMPROVEMENT : Nat := 100

/-- TSPSolver constant INTENSIFICATION_ITERATIONS = 50. -/
def INTENSIFICATION_ITERATIONS : Nat := 50

/-- TSPSolver constant IMPROVEMENT_THRESHOLD = 0.01. -/
def IMPROVEMENT_THRESHOLD : ℚ := 1 / 100

/-- Model of `std::numeric_limits<double>::max()`. -/
def doubleMax : ℚ := 10 ^ 308

/-- TSPSolver::evaluate - sums `cost[s[i]][s[i+1]]` over consecutive elements
of the sequence (it reads only the cost matrix of the instance). -/
def evaluate (cost : Nat → Nat → ℚ) : List Nat → ℚ
  | x :: y :: rest => cost x y + evaluate cost (y :: rest)
  | _ => 0

/-- TSPSolver::calculateMoveCost -
`-cost[h][i] - cost[j][l] + cost[h][j] + cost[i][l]` with
`h = s[from-1], i = s[from], j = s[to], l = s[to+1]`. -/
def calculateMoveCost (cost : Nat → Nat → ℚ) (s : List Nat) (m : Move) : ℚ :=
  let h := s.getD (m.from_ - 1) 0
  let i := s.getD m.from_ 0
  let j := s.getD m.to_ 0
  let l := s.getD (m.to_ + 1) 0;
  -cost h i - cost j l + cost h j + cost i l

/-- The swap loop of TSPSolver::applyMove
(`while (left < right) { swap(s[left], s[right]); left++; right--; }`),
with an explicit fuel argument for structural recursion.  One fuel unit is
consumed per loop iteration; `applyMove` supplies enough. -/
def swapLoop : Nat → List Nat → Nat → Nat → List Nat
  | 0, s, _, _ => s
  | fuel + 1, s, left, right =>
    if left < right then
      swapLoop fuel ((s.set left (s.getD right 0)).set right (s.getD left 0))
        (left + 1) (right - 1)
    else s

/-- TSPSolver::applyMove - reverses the segment between positions `from` and
`to` (inclusive) by pairwise swaps. -/
def applyMove (s : List Nat) (m : Move) : List Nat :=
  swapLoop s.length s m.from_ m.to_

/-- TSPSolver::isTabu - order-independent membership of the node pair in the
tabu list (the `iteration` argument is unused, as in the C++ code). -/
def isTabu (from_ to_ iteration : Nat) (tabu : List (Nat × Nat)) : Bool :=
  tabu.any fun mv => (mv.1 == from_ && mv.2 == to_) || (mv.1 == to_ && mv.2 == from_)

/-- The position pairs enumerated by the two nested loops of
TSPSolver::findBestNeighbor: `a` from `1` while `a < len - 2`, `b` from
`a + 1` while `b < len - 1`, where `len` is the sequence length. -/
def neighborPairs (len : Nat) : List (Nat × Nat) :=
  (List.range' 1 (len - 3)).flatMap fun a =>
    (List.range' (a + 1) (len - 2 - a)).map fun b => (a, b)

/-- The body of the inner loop of TSPSolver::findBestNeighbor: skip tabu
candidates, otherwise keep the move on a strict cost improvement. -/
def bestNeighborStep (tsp : TSP) (s : List Nat) (tabu : List (Nat × Nat))
    (iteration : Nat) (best : Move) (p : Nat × Nat) : Move :=
  if isTabu (s.getD p.1 0) (s.getD p.2 0) iteration tabu then best
  else
    let d := calculateMoveCost tsp.cost s ⟨p.1, p.2, 0⟩
    if d < best.cost_change then ⟨p.1, p.2, d⟩ else best

/-- TSPSolver::findBestNeighbor - fold of `bestNeighborStep` over all
candidate position pairs, starting from the sentinel move
(`cost_change = tsp.infinite`). -/
def findBestNeighbor (tsp : TSP) (s : List Nat) (tabu : List (Nat × Nat))
    (iteration : Nat) : Move :=
  (neighborPairs s.length).foldl (bestNeighborStep tsp s tabu iteration)
    ⟨0, 0, tsp.infinite⟩

/-- Single-cell increment of the frequency matrix. -/
def bumpFreq (f : Nat → Nat → Nat) (a b : Nat) : Nat → Nat → Nat :=
  fun i j => if i = a ∧ j = b then f i j + 1 else f i j

/-- TSPSolver::updateTabuList - append the pair, pop the front once if the
queue now exceeds the tenure, and increment both frequency cells. -/
def updateTabuList (tenure : Nat) (tabu : List (Nat × Nat))
    (freq : Nat → Nat → Nat) (from_ to_ : Nat) :
    List (Nat × Nat) × (Nat → Nat → Nat) :=
  let tabu1 := tabu ++ [(from_, to_)]
  let tabu2 := if tenure < tabu1.length then tabu1.tail else tabu1
  (tabu2, bumpFreq (bumpFreq freq from_ to_) to_ from_)

/-- TSPSolver::updateMoveFrequency - bump the frequency of the move key and
fold the improvement into the running average. -/
def updateMoveFrequency (hist : Nat × Nat → MoveFreq) (m : Move)
    (improvement : ℚ) : Nat × Nat → MoveFreq :=
  let key := (m.from_, m.to_)
  let f := hist key
  let k := f.frequency + 1
  let avg := (f.avg_improvement * ((k : ℚ) - 1) + improvement) / (k : ℚ)
  fun p => if p = key then { f with frequency := k, avg_improvement := avg } else hist p

/-- TSPSolver::updateSearchStats - push one SearchStats record (wall-clock
time is passed in; the model always passes 0). -/
def updateSearchStats (hist : List SearchStats) (iteration : Nat)
    (current_value previous_value : ℚ) (tenure : Nat) (time_elapsed : ℚ) :
    List SearchStats :=
  let improvement := previous_value - current_value
  let pct := if previous_value ≠ 0 then improvement / previous_value * 100 else 0
  hist ++ [{ iteration := iteration, solution_value := current_value,
             current_tenure := tenure,
             was_improvement := decide (IMPROVEMENT_THRESHOLD < improvement),
             improvement_percentage := pct, time_elapsed := time_elapsed }]

/-- TSPSolver::shouldIntensify -
`current < best - 0.01 || (iterations_without_improvement == 0 && current < best)`. -/
def shouldIntensify (iwi : Nat) (current_value best_value : ℚ) : Bool :=
  decide (current_value < best_value - IMPROVEMENT_THRESHOLD) ||
    (iwi == 0 && decide (current_value < best_value))

/-- Mutable members of TSPSolver together with the local state of
solveWithTabuSearch (current/best solution and values, iteration counter),
plus the explicit random stream. -/
structure SolverState where
  seq : List Nat
  bestSeq : List Nat
  currValue : ℚ
  bestValue : ℚ
  tabu : List (Nat × Nat)
  tenure : Nat
  minTenure : Nat
  maxTenure : Nat
  iwi : Nat
  bestKnown : ℚ
  phase : Bool
  freq : Nat → Nat → Nat
  hist : Nat × Nat → MoveFreq
  searchHist : List SearchStats
  bestIntSeq : List Nat
  bestIntValue : ℚ
  iteration : Nat
  rng : List Nat

/-- TSPSolver::shouldDiversify -
`iwi >= 100 || (tenure >= max_tenure - 2 && iwi >= 50)`. -/
def shouldDiversify (s : SolverState) : Bool :=
  MAX_ITERATIONS_WITHOUT_IMPROVEMENT ≤ s.iwi ||
    (s.maxTenure - 2 ≤ s.tenure && MAX_ITERATIONS_WITHOUT_IMPROVEMENT / 2 ≤ s.iwi)

/-- TSPSolver::adjustTabuTenure - reactive tenure control. -/
def adjustTabuTenure (s : SolverState) (current_value : ℚ) : SolverState :=
  if s.bestKnown ≤ current_value then
    let iwi1 := s.iwi + 1
    if MAX_ITERATIONS_WITHOUT_IMPROVEMENT / 2 < iwi1 then
      { s with iwi := iwi1, tenure := min (s.tenure + 2) s.maxTenure }
    else { s with iwi := iwi1 }
  else
    { s with tenure := max (s.tenure - 1) s.minTenure, iwi := 0,
             bestKnown := current_value }

/-- The `least_used_moves` list built by TSPSolver::diversifySearch: all
pairs `i < j < n` whose frequency count is below `n / 4`. -/
def leastUsedMoves (n : Nat) (freq : Nat → Nat → Nat) : List (Nat × Nat) :=
  (List.range n).flatMap fun i =>
    (List.range' (i + 1) (n - (i + 1))).filterMap fun j =>
      if freq i j < n / 4 then some (i, j) else none

/-- The perturbation loop of TSPSolver::diversifySearch: up to `num_moves`
times, pick a random remaining least-used pair, swap the positions of its two
node values in the sequence (when both are present), and erase the pair. -/
def diversifyLoop : Nat → List Nat → List (Nat × Nat) → List Nat →
    List Nat × List Nat
  | 0, seq, _, rng => (seq, rng)
  | k + 1, seq, lum, rng =>
    if lum.length = 0 then (seq, rng)
    else
      let idx := rng.headD 0 % lum.length
      let mv := lum.getD idx (0, 0)
      let i1 := seq.indexOf mv.1
      let i2 := seq.indexOf mv.2
      let seq1 :=
        if i1 < seq.length ∧ i2 < seq.length then
          (seq.set i1 (seq.getD i2 0)).set i2 (seq.getD i1 0)
        else seq
      diversifyLoop k seq1 (lum.eraseIdx idx) rng.tail

/-- TSPSolver::diversifySearch - apply `seq.length / 3` frequency-guided
position swaps, then clear the tabu list and the stagnation counter. -/
def diversifySearch (n : Nat) (s : SolverState) : SolverState :=
  let lum := leastUsedMoves n s.freq
  let r := diversifyLoop (s.seq.length / 3) s.seq lum s.rng
  { s with seq := r.1, rng := r.2, tabu := [], iwi := 0 }

/-- The inner loop of TSPSolver::intensifySearch (at most
INTENSIFICATION_ITERATIONS passes; `i` is the inner iteration counter).
Carries the solver state plus the best local solution and value. -/
def intensifyLoop (tsp : TSP) (backupValue : ℚ) :
    Nat → Nat → SolverState → List Nat → ℚ → SolverState × List Nat × ℚ
  | 0, _, st, bl, blv => (st, bl, blv)
  | fuel + 1, i, st, bl, blv =>
    let move := findBestNeighbor tsp st.seq st.tabu i
    if tsp.infinite ≤ move.cost_change then (st, bl, blv)
    else
      let seq1 := applyMove st.seq move
      let nv := evaluate tsp.cost seq1
      let hist1 := updateMoveFrequency st.hist move (backupValue - nv)
      let bl1 := if nv < blv then seq1 else bl
      let blv1 := if nv < blv then nv else blv
      let ut := updateTabuList st.tenure st.tabu st.freq
        (seq1.getD move.from_ 0) (seq1.getD move.to_ 0)
      intensifyLoop tsp backupValue fuel (i + 1)
        { st with seq := seq1, hist := hist1, tabu := ut.1, freq := ut.2 }
        bl1 blv1

/-- TSPSolver::intensifySearch - run the inner loop with tenure forced to
`min_tenure`, restore the tenure, and keep the best local solution if it
improved on the backup (else restore the backup). -/
def intensifySearch (tsp : TSP) (s : SolverState) : SolverState :=
  let backup := s.seq
  let backupValue := evaluate tsp.cost s.seq
  let originalTenure := s.tenure
  let r := intensifyLoop tsp backupValue INTENSIFICATION_ITERATIONS 0
    { s with tenure := s.minTenure } s.seq backupValue
  let st := r.1
  let bl := r.2.1
  let blv := r.2.2
  let s2 := { st with tenure := originalTenure }
  if blv < backupValue then
    let s3 := { s2 with seq := bl }
    if blv < s2.bestIntValue then
      { s3 with bestIntSeq := bl, bestIntValue := blv }
    else s3
  else { s2 with seq := backup }

/-- One non-sentinel pass of the solveWithTabuSearch loop body (lines 86-116
of TSPSolver.cpp): record the tabu attribute, apply the move, update the
incremental value and the statistics, run intensification or diversification,
adjust the tenure, and advance the iteration counter. -/
def normalPass (tsp : TSP) (s : SolverState) (move : Move) : SolverState :=
  let a := s.seq.getD move.from_ 0
  let b := s.seq.getD move.to_ 0
  let ut := updateTabuList s.tenure s.tabu s.freq a b
  let seq1 := applyMove s.seq move
  let curr1 := s.currValue + move.cost_change
  let hist1 := updateMoveFrequency s.hist move (s.currValue - curr1)
  let sh1 := updateSearchStats s.searchHist s.iteration curr1 s.currValue s.tenure 0
  let s2 := { s with tabu := ut.1, freq := ut.2, seq := seq1,
                     currValue := curr1, hist := hist1, searchHist := sh1 }
  let s4 :=
    if shouldIntensify s2.iwi curr1 s.bestValue then
      let s3 := { s2 with bestValue := curr1, bestSeq := seq1, phase := true }
      let s3i := intensifySearch tsp s3
      { s3i with currValue := evaluate tsp.cost s3i.seq }
    else if shouldDiversify s2 then
      let s3 := diversifySearch tsp.n s2
      { s3 with currValue := evaluate tsp.cost s3.seq }
    else s2
  let s5 := adjustTabuTenure s4 s4.currValue
  { s5 with iteration := s.iteration + 1 }

/-- The `while (!stop)` loop of TSPSolver::solveWithTabuSearch, by structural
recursion on fuel.  A sentinel move ends the intensification phase (and the
loop continues) or stops the loop; a normal pass stops once the iteration
count reaches `maxIterations`. -/
def tabuLoop (tsp : TSP) (maxIterations : Nat) : Nat → SolverState → SolverState
  | 0, s => s
  | fuel + 1, s =>
    let move := findBestNeighbor tsp s.seq s.tabu s.iteration
    if tsp.infinite ≤ move.cost_change then
      if s.phase then tabuLoop tsp maxIterations fuel { s with phase := false }
      else s
    else
      let s1 := normalPass tsp s move
      if maxIterations ≤ s1.iteration then s1
      else tabuLoop tsp maxIterations fuel s1

/-- TSPSolver::solveWithTabuSearch - initialize the memory structures and the
search state (lines 61-71) and run the loop.  `tenure0`, `iwi0` and `phase0`
are the values of the corresponding solver members on entry (`7`, `0` and
`false` for a freshly constructed solver); `min_tenure = 5` and
`max_tenure = 20` as in the constructor.  The initial
`best_intensification_solution` is the sequence `[0]` produced by
`TSPSolution(TSP())` on the empty instance. -/
def initState (tsp : TSP) (initSeq : List Nat) (tenure0 iwi0 : Nat)
    (phase0 : Bool) (rng : List Nat) : SolverState :=
  let v := evaluate tsp.cost initSeq
  { seq := initSeq, bestSeq := initSeq, currValue := v, bestValue := v,
    tabu := [], tenure := tenure0, minTenure := 5, maxTenure := 20,
    iwi := iwi0, bestKnown := v, phase := phase0,
    freq := fun _ _ => 0, hist := fun _ => ⟨-1, -1, 0, 0⟩,
    searchHist := [], bestIntSeq := [0], bestIntValue := doubleMax,
    iteration := 0, rng := rng }

def solveWithTabuSearch (tsp : TSP) (maxIterations : Nat) (initSeq : List Nat)
    (tenure0 iwi0 : Nat) (phase0 : Bool) (rng : List Nat) : SolverState :=
  tabuLoop tsp maxIterations (2 * maxIterations + 2)
    (initState tsp initSeq tenure0 iwi0 phase0 rng)

/-! Concrete instances used by counterexamples and witnesses. -/

/-- Indexing of a `std::vector<std::vector<double>>` cost matrix as a total
function (out-of-range access is undefined behaviour in C++; the model
returns 0 there; no theorem depends on the out-of-range values). -/
def costOf (m : List (List ℚ)) (i j : Nat) : ℚ := (m.getD i []).getD j 0

/-- The 4-node symmetric matrix of the scenario in section 8 of the spec. -/
def specCost4 : List (List ℚ) := [[0,1,9,9],[1,0,1,9],[9,1,0,1],[9,9,1,0]]

def tsp4 : TSP := ⟨4, costOf specCost4, 10 ^ 10⟩

/-- A 4-node asymmetric matrix (`cost[1][2] = 5 ≠ 1 = cost[2][1]`,
`cost[3][2] = 3 ≠ 1 = cost[2][3]`). -/
def asymCost4 : List (List ℚ) := [[0,1,9,9],[1,0,5,9],[9,1,0,1],[9,9,3,0]]

def tspAsym : TSP := ⟨4, costOf asymCost4, 10 ^ 10⟩

/-- A 4-node matrix on which the best admissible first move from the identity
tour is the position pair `(1, 3)`. -/
def farCost4 : List (List ℚ) := [[0,10,9,1],[1,0,1,9],[9,9,0,1],[10,9,1,0]]

def tspFar : TSP := ⟨4, costOf farCost4, 10 ^ 10⟩

/-- A 2-node instance (`size < 3`). -/
def tsp2 : TSP := ⟨2, costOf [[0,3],[4,0]], 10 ^ 10⟩

/-- A solver state as diversification can be entered on a 5-node instance:
depot-anchored tour, fresh frequency matrix (every pair of nodes is
under-used, in particular every pair containing the depot, whose frequency
cells are never incremented by applied moves), stagnation counter at the
diversification threshold. -/
def divState : SolverState :=
  { seq := [0,1,2,3,4,0], bestSeq := [0,1,2,3,4,0], currValue := 0,
    bestValue := 0, tabu := [], tenure := 7, minTenure := 5, maxTenure := 20,
    iwi := 100, bestKnown := 0, phase := false, freq := fun _ _ => 0,
    hist := fun _ => ⟨-1, -1, 0, 0⟩, searchHist := [], bestIntSeq := [0],
    bestIntValue := doubleMax, iteration := 0, rng := [0, 0] }

/-! Helper lemmas. -/

theorem shouldIntensify_lt {iwi : Nat} {c b : ℚ}
    (h : shouldIntensify iwi c b = true) : c < b := by
  simp only [shouldIntensify, IMPROVEMENT_THRESHOLD, Bool.or_eq_true,
    Bool.and_eq_true, decide_eq_true_eq, beq_iff_eq] at h
  rcases h with h | ⟨_, h⟩
  · linarith
  · exact h

/-- Membership in the position pairs enumerated by findBestNeighbor, for a
tour of length `n + 1` over an instance with at least 3 nodes. -/
theorem mem_neighborPairs {n a b : Nat} (hn : 3 ≤ n) :
    (a, b) ∈ neighborPairs (n + 1) ↔ 1 ≤ a ∧ a < b ∧ b ≤ n - 1 := by
  simp only [neighborPairs, List.mem_flatMap, List.mem_map, List.mem_range'_1]
  constructor
  · rintro ⟨a', ⟨ha1, ha2⟩, b', ⟨hb1, hb2⟩, hab⟩
    cases hab
    omega
  · rintro ⟨h1, h2, h3⟩
    exact ⟨a, ⟨h1, by omega⟩, b, ⟨by omega, by omega⟩, rfl⟩

/-- Invariant of the findBestNeighbor fold: a non-sentinel result was set at
some enumerated candidate that passed the tabu test. -/
theorem foldl_bestNeighbor_inv (tsp : TSP) (s : List Nat)
    (tabu : List (Nat × Nat)) (iteration : Nat) (ps ps0 : List (Nat × Nat)) :
    (∀ p ∈ ps, p ∈ ps0) →
    ∀ m : Move,
    (m.cost_change < tsp.infinite →
      (m.from_, m.to_) ∈ ps0 ∧
        isTabu (s.getD m.from_ 0) (s.getD m.to_ 0) iteration tabu = false) →
    ((ps.foldl (bestNeighborStep tsp s tabu iteration) m).cost_change < tsp.infinite →
      ((ps.foldl (bestNeighborStep tsp s tabu iteration) m).from_,
        (ps.foldl (bestNeighborStep tsp s tabu iteration) m).to_) ∈ ps0 ∧
        isTabu
          (s.getD (ps.foldl (bestNeighborStep tsp s tabu iteration) m).from_ 0)
          (s.getD (ps.foldl (bestNeighborStep tsp s tabu iteration) m).to_ 0)
          iteration tabu = false) := by
  induction ps with
  | nil => exact fun _ m hm => hm
  | cons p ps ih =>
    intro hps m hm
    simp only [List.foldl_cons]
    refine ih (fun q hq => hps q (List.mem_cons_of_mem p hq)) _ ?_
    unfold bestNeighborStep
    split
    · exact hm
    · dsimp only
      split
      · intro _
        refine ⟨hps p (List.mem_cons_self p ps), ?_⟩
        simp_all
      · exact hm

/-- A non-sentinel move returned by findBestNeighbor is one of the enumerated
position pairs and its node-value attribute is not tabu. -/
theorem findBestNeighbor_spec (tsp : TSP) (s : List Nat)
    (tabu : List (Nat × Nat)) (iteration : Nat)
    (h : (findBestNeighbor tsp s tabu iteration).cost_change < tsp.infinite) :
    ((findBestNeighbor tsp s tabu iteration).from_,
      (findBestNeighbor tsp s tabu iteration).to_) ∈ neighborPairs s.length ∧
      isTabu (s.getD (findBestNeighbor tsp s tabu iteration).from_ 0)
        (s.getD (findBestNeighbor tsp s tabu iteration).to_ 0)
        iteration tabu = false := by
  refine foldl_bestNeighbor_inv tsp s tabu iteration _ _ (fun p hp => hp) _ ?_ h
  intro hlt
  simp at hlt

/-! Claim theorems. -/

/-- C1: at the concrete diversification input `divState` (valid depot-anchored
tour `[0,1,2,3,4,0]`, fresh frequency matrix), the diversification
perturbation swaps the depot away from position 0: the resulting
current tour is `[1,2,0,3,4,0]`, whose first element is not the depot, so the
permutation-cycle invariant claimed for every diversification perturbation is
violated by the code. -/
theorem C1_diversification_moves_depot :
    (diversifySearch 5 divState).seq = [1, 2, 0, 3, 4, 0] ∧
      (diversifySearch 5 divState).seq.headD 0 ≠ 0 := by decide

/-- C3: counterexample — with the tenure lowered to 5 while the tabu list
holds 7 entries, a single record (updateTabuList) leaves 7 entries, which
exceeds the current tenure, contradicting the claim that the queue never
exceeds the current tenure after a record. -/
theorem C3_shrunk_tenure_counterexample :
    (updateTabuList 5 [(1,2),(3,4),(5,6),(7,8),(9,10),(11,12),(13,14)]
        (fun _ _ => 0) 15 16).1.length = 7 ∧
      ¬ (updateTabuList 5 [(1,2),(3,4),(5,6),(7,8),(9,10),(11,12),(13,14)]
        (fun _ _ => 0) 15 16).1.length ≤ 5 := by decide

/-- C3 amended: a call to the record operation evicts at most one oldest
entry: the tabu list length after updateTabuList is the old length if the
appended queue exceeds the current tenure, and the old length plus one
otherwise.  In particular the queue exceeds the current tenure after a record
exactly when it already held at least tenure + 1 entries before it. -/
theorem C3_tabu_length_after_record (tenure : Nat) (tabu : List (Nat × Nat))
    (freq : Nat → Nat → Nat) (a b : Nat) :
    (updateTabuList tenure tabu freq a b).1.length =
      if tenure < tabu.length + 1 then tabu.length else tabu.length + 1 := by
  have hlen : (tabu ++ [(a, b)]).length = tabu.length + 1 := by simp
  unfold updateTabuList
  by_cases h : tenure < tabu.length + 1
  · simp [hlen, h, List.length_tail]
  · simp [hlen, h]

/-- C4: counterexample — with the stagnation counter at 0, current value
9.99 and best value 10, shouldIntensify returns true although the
improvement (0.01) is not larger than the epsilon 0.01, refuting the claimed
equivalence with `current < best - 0.01`. -/
theorem C4_intensify_trigger_counterexample :
    shouldIntensify 0 (999 / 100) 10 = true ∧
      ¬ ((999 : ℚ) / 100 < 10 - 1 / 100) := by with_unfolding_all decide

/-- C4 amended: shouldIntensify returns true exactly when the current value
improves on the best value by more than the epsilon 0.01, or the stagnation
counter is zero and the current value is strictly below the best value. -/
theorem C4_intensify_trigger_iff (iwi : Nat) (c b : ℚ) :
    shouldIntensify iwi c b = true ↔
      (c < b - 1 / 100 ∨ (iwi = 0 ∧ c < b)) := by
  simp [shouldIntensify, IMPROVEMENT_THRESHOLD]

/-- C8: a non-sentinel move returned by findBestNeighbor never has its
node-value attribute `(tour[from], tour[to])` in the tabu list, in either
order — there is no aspiration override. -/
theorem C8_no_aspiration (tsp : TSP) (s : List Nat) (tabu : List (Nat × Nat))
    (iteration : Nat)
    (h : (findBestNeighbor tsp s tabu iteration).cost_change < tsp.infinite) :
    isTabu (s.getD (findBestNeighbor tsp s tabu iteration).from_ 0)
      (s.getD (findBestNeighbor tsp s tabu iteration).to_ 0)
      iteration tabu = false :=
  (findBestNeighbor_spec tsp s tabu iteration h).2

theorem C8_no_aspiration_witness :
    (findBestNeighbor tsp4 [0,2,1,3,0] [] 0).cost_change < tsp4.infinite ∧
      isTabu (List.getD [0,2,1,3,0] (findBestNeighbor tsp4 [0,2,1,3,0] [] 0).from_ 0)
        (List.getD [0,2,1,3,0] (findBestNeighbor tsp4 [0,2,1,3,0] [] 0).to_ 0)
        0 [] = false :=
  ⟨by with_unfolding_all decide, C8_no_aspiration tsp4 [0,2,1,3,0] [] 0 (by with_unfolding_all decide)⟩

/-- C10: counterexample — on the 4-node instance tspFar (size = 4) with the
identity tour, findBestNeighbor returns the move `(1, 3)`, whose `to`
position is `size - 1 = 3`, exceeding the claimed bound `size - 2 = 2`: the
enumeration does not stop at `size - 2`. -/
theorem C10_enumeration_counterexample :
    findBestNeighbor tspFar [0,1,2,3,0] [] 0 = ⟨1, 3, -18⟩ ∧
      ¬ (findBestNeighbor tspFar [0,1,2,3,0] [] 0).to_ ≤ 4 - 2 := by with_unfolding_all decide

/-- C10 amended: for a tour of length `size + 1` on an instance with at least
3 nodes, the move generator enumerates exactly the position pairs `(a, b)`
with `1 ≤ a < b ≤ size − 1`, and every non-sentinel move it returns satisfies
`1 ≤ from < to ≤ size − 1` (the depot at position 0 and the closing depot at
the last position are never disturbed). -/
theorem C10_enumeration_range (tsp : TSP) (s : List Nat)
    (tabu : List (Nat × Nat)) (iteration n : Nat) (hs : s.length = n + 1)
    (hn : 3 ≤ n)
    (h : (findBestNeighbor tsp s tabu iteration).cost_change < tsp.infinite) :
    (∀ a b, (a, b) ∈ neighborPairs s.length ↔ 1 ≤ a ∧ a < b ∧ b ≤ n - 1) ∧
      1 ≤ (findBestNeighbor tsp s tabu iteration).from_ ∧
      (findBestNeighbor tsp s tabu iteration).from_ <
        (findBestNeighbor tsp s tabu iteration).to_ ∧
      (findBestNeighbor tsp s tabu iteration).to_ ≤ n - 1 := by
  have hmem := (findBestNeighbor_spec tsp s tabu iteration h).1
  rw [hs] at hmem ⊢
  rw [mem_neighborPairs hn] at hmem
  exact ⟨fun a b => mem_neighborPairs hn, hmem⟩

theorem C10_enumeration_range_witness :
    List.length [0,1,2,3,0] = 4 + 1 ∧ 3 ≤ 4 ∧
      (findBestNeighbor tspFar [0,1,2,3,0] [] 0).cost_change < tspFar.infinite ∧
      (1 ≤ (findBestNeighbor tspFar [0,1,2,3,0] [] 0).from_ ∧
        (findBestNeighbor tspFar [0,1,2,3,0] [] 0).from_ <
          (findBestNeighbor tspFar [0,1,2,3,0] [] 0).to_ ∧
        (findBestNeighbor tspFar [0,1,2,3,0] [] 0).to_ ≤ 4 - 1) :=
  ⟨by with_unfolding_all decide, by with_unfolding_all decide, by with_unfolding_all decide,
    (C10_enumeration_range tspFar [0,1,2,3,0] [] 0 4 (by with_unfolding_all decide) (by with_unfolding_all decide)
      (by with_unfolding_all decide)).2⟩

/-- C2: counterexample — on the asymmetric instance tspAsym the incremental
cost of the move `(1, 3)` on the tour `[0,1,2,3,0]` is 0, while the true
evaluation difference is −2: the two differ by 2, far beyond any 1e-9
relative tolerance of the tour costs involved (16 before, 14 after). -/
theorem C2_asymmetric_counterexample :
    calculateMoveCost tspAsym.cost [0,1,2,3,0] ⟨1, 3, 0⟩ = 0 ∧
      evaluate tspAsym.cost (applyMove [0,1,2,3,0] ⟨1, 3, 0⟩) -
        evaluate tspAsym.cost [0,1,2,3,0] = -2 ∧
      ¬ |calculateMoveCost tspAsym.cost [0,1,2,3,0] ⟨1, 3, 0⟩ -
          (evaluate tspAsym.cost (applyMove [0,1,2,3,0] ⟨1, 3, 0⟩) -
            evaluate tspAsym.cost [0,1,2,3,0])| ≤
        1 / 1000000000 *
          |evaluate tspAsym.cost (applyMove [0,1,2,3,0] ⟨1, 3, 0⟩) -
            evaluate tspAsym.cost [0,1,2,3,0]| := by with_unfolding_all decide

/-! Characterization of the applyMove swap loop as a segment reversal, and
arithmetic of `evaluate` over list concatenation and reversal: the material
for settling the move-cost claim. -/

theorem swapLoop_length (k : Nat) : ∀ (s : List Nat) (l r : Nat),
    (swapLoop k s l r).length = s.length := by
  induction k with
  | zero => intro s l r; rfl
  | succ k ih =>
    intro s l r
    rw [swapLoop]
    split
    · rw [ih]; simp
    · rfl

theorem take_set_of_le (s : List Nat) (x : Nat) {n m : Nat} (h : n ≤ m) :
    (s.set m x).take n = s.take n := by
  apply List.ext_getElem
  · simp
  · intro i h1 h2
    rw [List.getElem_take, List.getElem_take, List.getElem_set]
    rw [if_neg]
    simp only [List.length_take, lt_min_iff] at h1
    omega

theorem take_set_set (s : List Nat) (l r x y : Nat) (hlr : l < r)
    (hl : l < s.length) :
    ((s.set l x).set r y).take (l + 1) = s.take l ++ [x] := by
  rw [take_set_of_le _ _ (by omega : l + 1 ≤ r)]
  rw [List.set_eq_take_append_cons_drop, if_pos hl]
  have hlt : (s.take l).length = l := by simp; omega
  calc (s.take l ++ x :: s.drop (l + 1)).take (l + 1)
      = (s.take l ++ x :: s.drop (l + 1)).take ((s.take l).length + 1) := by
        rw [hlt]
    _ = s.take l ++ (x :: s.drop (l + 1)).take 1 := List.take_append 1
    _ = s.take l ++ [x] := by rw [List.take_succ_cons, List.take_zero]

theorem drop_set_set (s : List Nat) (l r x y : Nat) (hlr : l < r)
    (hr : r < s.length) :
    ((s.set l x).set r y).drop r = y :: s.drop (r + 1) := by
  rw [List.drop_set, if_neg (lt_irrefl r), List.drop_set, if_pos hlr,
    Nat.sub_self, List.drop_eq_getElem_cons hr, List.set_cons_zero]

theorem middle_set_set (s : List Nat) (l r x y : Nat) (hlr : l < r) :
    (((s.set l x).set r y).drop (l + 1)).take (r - l - 1) =
      (s.drop (l + 1)).take (r - l - 1) := by
  rw [List.drop_set, if_neg (by omega : ¬ r < l + 1), List.drop_set,
    if_pos (by omega : l < l + 1)]
  exact take_set_of_le _ _ (by omega)

theorem swapLoop_eq (k : Nat) : ∀ (s : List Nat) (l r : Nat),
    r < s.length → l ≤ r + 1 → r - l ≤ k →
    swapLoop k s l r =
      s.take l ++ ((s.drop l).take (r + 1 - l)).reverse ++ s.drop (r + 1) := by
  induction k with
  | zero =>
    intro s l r hr hl hk
    show s = _
    rcases (show l = r ∨ l = r + 1 by omega) with h | h
    · subst h
      rw [show l + 1 - l = 1 by omega, List.drop_eq_getElem_cons hr,
        List.take_succ_cons, List.take_zero, List.reverse_cons,
        List.reverse_nil, List.nil_append]
      conv_lhs => rw [← List.take_append_drop l s, List.drop_eq_getElem_cons hr]
      simp
    · subst h
      rw [show r + 1 - (r + 1) = 0 by omega, List.take_zero, List.reverse_nil]
      rw [List.append_nil, List.take_append_drop]
  | succ k ih =>
    intro s l r hr hl hk
    by_cases hlr : l < r
    · rw [swapLoop, if_pos hlr]
      have hl' : l < s.length := by omega
      have hgr : s.getD r 0 = s[r] := List.getD_eq_getElem s 0 hr
      have hgl : s.getD l 0 = s[l] := List.getD_eq_getElem s 0 hl'
      have hlen : ((s.set l (s.getD r 0)).set r (s.getD l 0)).length = s.length := by
        simp
      rw [ih _ (l + 1) (r - 1) (by rw [hlen]; omega) (by omega) (by omega)]
      rw [show r - 1 + 1 = r by omega, show r - (l + 1) = r - l - 1 by omega]
      rw [take_set_set s l r _ _ hlr hl', drop_set_set s l r _ _ hlr hr,
        middle_set_set s l r _ _ hlr]
      -- decompose the target segment [l .. r] as s[l] :: middle ++ [s[r]]
      have hseg : (s.drop l).take (r + 1 - l) =
          s[l] :: ((s.drop (l + 1)).take (r - l - 1) ++ [s[r]]) := by
        rw [List.drop_eq_getElem_cons hl', show r + 1 - l = (r - l - 1 + 1) + 1 by omega,
          List.take_succ_cons, List.take_succ]
        have hidx : l + 1 + (r - l - 1) = r := by omega
        have hlen2 : r - l - 1 < (s.drop (l + 1)).length := by
          rw [List.length_drop]; omega
        rw [List.getElem?_eq_getElem hlen2, List.getElem_drop]
        simp only [hidx]
        rfl
      rw [hseg, hgr, hgl]
      simp [List.reverse_cons, List.reverse_append]
    · -- no iteration: same as the fuel-0 case
      rw [swapLoop, if_neg hlr]
      rcases (show l = r ∨ l = r + 1 by omega) with h | h
      · subst h
        rw [show l + 1 - l = 1 by omega, List.drop_eq_getElem_cons hr,
          List.take_succ_cons, List.take_zero, List.reverse_cons,
          List.reverse_nil, List.nil_append]
        conv_lhs => rw [← List.take_append_drop l s, List.drop_eq_getElem_cons hr]
        simp
      · subst h
        rw [show r + 1 - (r + 1) = 0 by omega, List.take_zero, List.reverse_nil]
        rw [List.append_nil, List.take_append_drop]

theorem applyMove_eq (s : List Nat) (m : Move) (h1 : m.to_ < s.length)
    (h2 : m.from_ ≤ m.to_ + 1) :
    applyMove s m =
      s.take m.from_ ++
        ((s.drop m.from_).take (m.to_ + 1 - m.from_)).reverse ++
        s.drop (m.to_ + 1) :=
  swapLoop_eq s.length s m.from_ m.to_ h1 h2 (by omega)

theorem evaluate_append_cons (c : Nat → Nat → ℚ) (A : List Nat) (x : Nat)
    (B : List Nat) :
    evaluate c (A ++ x :: B) = evaluate c (A ++ [x]) + evaluate c (x :: B) := by
  induction A with
  | nil => simp [evaluate]
  | cons a A ih =>
    cases A with
    | nil => simp [evaluate]
    | cons a' A' =>
      simp only [List.cons_append, evaluate, List.append_eq] at ih ⊢
      rw [ih]
      ring

theorem evaluate_concat (c : Nat → Nat → ℚ) (A : List Nat) (x : Nat) :
    A ≠ [] → evaluate c (A ++ [x]) = evaluate c A + c (A.getLastD 0) x := by
  induction A with
  | nil => intro h; exact absurd rfl h
  | cons a A ih =>
    intro _
    cases A with
    | nil => simp [evaluate]
    | cons a' A' =>
      simp only [List.cons_append, evaluate, List.append_eq,
        List.getLastD_cons] at ih ⊢
      rw [ih (by simp)]
      ring

theorem evaluate_reverse_concat (c : Nat → Nat → ℚ) (L : List Nat) :
    ∀ x : Nat, evaluate c (L.reverse ++ [x]) =
      evaluate (fun i j => c j i) (x :: L) := by
  induction L with
  | nil => intro x; simp [evaluate]
  | cons y L ih =>
    intro x
    rw [List.reverse_cons, List.append_assoc, List.singleton_append,
      evaluate_append_cons, ih y]
    simp only [evaluate]
    ring

theorem evaluate_reverse (c : Nat → Nat → ℚ) (L : List Nat) :
    evaluate c L.reverse = evaluate (fun i j => c j i) L := by
  cases L with
  | nil => rfl
  | cons y L => rw [List.reverse_cons, evaluate_reverse_concat]

theorem evaluate_cons_of_ne_nil (c : Nat → Nat → ℚ) (h : Nat) (Z : List Nat)
    (hZ : Z ≠ []) :
    evaluate c (h :: Z) = c h (Z.headD 0) + evaluate c Z := by
  cases Z with
  | nil => exact absurd rfl hZ
  | cons z Z' => simp [evaluate]

/-- Splitting the tour evaluation at an interior segment with one node of
context on each side. -/
theorem evaluate_three (c : Nat → Nat → ℚ) (P : List Nat) (h : Nat)
    (S : List Nat) (lv : Nat) (D : List Nat) :
    evaluate c (P ++ h :: (S ++ lv :: D)) =
      evaluate c (P ++ [h]) + evaluate c (h :: S ++ [lv]) +
        evaluate c (lv :: D) := by
  rw [evaluate_append_cons c P h (S ++ lv :: D),
    show h :: (S ++ lv :: D) = (h :: S) ++ lv :: D by simp,
    evaluate_append_cons c (h :: S) lv D,
    show (h :: S) ++ [lv] = h :: S ++ [lv] by simp]
  ring

/-- C2 amended: for a symmetric cost matrix, calculateMoveCost is exactly the
difference of the tour evaluations across applyMove, for every tour and every
in-range move. -/
theorem C2_move_cost_symmetric (cost : Nat → Nat → ℚ) (s : List Nat) (m : Move)
    (hsym : ∀ i j, cost i j = cost j i) (h1 : 1 ≤ m.from_)
    (h2 : m.from_ < m.to_) (h3 : m.to_ + 1 < s.length) :
    calculateMoveCost cost s m =
      evaluate cost (applyMove s m) - evaluate cost s := by
  obtain ⟨l, r, d⟩ := m
  simp only at h1 h2 h3 ⊢
  have hr : r < s.length := by omega
  have hl : l < s.length := by omega
  have hl1 : l - 1 < s.length := by omega
  have hr1 : r + 1 < s.length := h3
  -- the reversed segment S and its endpoints
  set S := (s.drop l).take (r + 1 - l) with hS_def
  have hmid : S = s[l] :: ((s.drop (l + 1)).take (r - l - 1) ++ [s[r]]) := by
    rw [hS_def, List.drop_eq_getElem_cons hl,
      show r + 1 - l = (r - l - 1 + 1) + 1 by omega,
      List.take_succ_cons, List.take_succ]
    have hlen2 : r - l - 1 < (s.drop (l + 1)).length := by
      rw [List.length_drop]; omega
    rw [List.getElem?_eq_getElem hlen2, List.getElem_drop]
    simp only [show l + 1 + (r - l - 1) = r by omega]
    rfl
  have hSne : S ≠ [] := by rw [hmid]; simp
  have hSrevne : S.reverse ≠ [] := by
    rw [Ne, List.reverse_eq_nil_iff]; exact hSne
  have hShead : S.headD 0 = s[l] := by rw [hmid]; rfl
  have hSlast : S.getLastD 0 = s[r] := by
    rw [hmid, List.getLastD_cons, List.getLastD_concat]
  have hSrevhead : S.reverse.headD 0 = s[r] := by
    rw [List.headD_eq_head?, List.head?_reverse, ← List.getLastD_eq_getLast?,
      hSlast]
  have hSrevlast : S.reverse.getLastD 0 = s[l] := by
    rw [List.getLastD_eq_getLast?, List.getLast?_reverse, ← List.headD_eq_head?,
      hShead]
  -- decomposition of the tour before and after the move
  have hsplit : s = s.take l ++ S ++ s.drop (r + 1) := by
    have h6 : S ++ (s.drop l).drop (r + 1 - l) = s.drop l :=
      List.take_append_drop _ _
    rw [List.drop_drop, show l + (r + 1 - l) = r + 1 by omega] at h6
    rw [List.append_assoc, h6, List.take_append_drop]
  have htake : s.take l = s.take (l - 1) ++ [s[l - 1]] := by
    conv_lhs => rw [show l = (l - 1) + 1 by omega]
    rw [List.take_succ, List.getElem?_eq_getElem hl1]
    rfl
  have hdrop : s.drop (r + 1) = s[r + 1] :: s.drop (r + 2) := by
    rw [List.drop_eq_getElem_cons hr1]
  have hsplit2 : s = s.take (l - 1) ++
      s[l - 1] :: (S ++ s[r + 1] :: s.drop (r + 2)) := by
    conv_lhs => rw [hsplit, htake, hdrop]
    simp only [List.append_assoc, List.singleton_append, List.cons_append, List.nil_append]
  have happly2 : applyMove s ⟨l, r, d⟩ = s.take (l - 1) ++
      s[l - 1] :: (S.reverse ++ s[r + 1] :: s.drop (r + 2)) := by
    have h0 := applyMove_eq s ⟨l, r, d⟩ hr (show l ≤ r + 1 by omega)
    simp only at h0
    rw [h0, ← hS_def, htake, hdrop]
    simp only [List.append_assoc, List.singleton_append, List.cons_append, List.nil_append]
  -- evaluate both decompositions
  have hb := congrArg (evaluate cost) hsplit2
  rw [evaluate_three] at hb
  have ha := congrArg (evaluate cost) happly2
  rw [evaluate_three] at ha
  -- evaluate the two middle pieces
  have hmid_b : evaluate cost (s[l - 1] :: S ++ [s[r + 1]]) =
      cost s[l - 1] s[l] + evaluate cost S + cost s[r] s[r + 1] := by
    rw [show s[l - 1] :: S ++ [s[r + 1]] = s[l - 1] :: (S ++ [s[r + 1]]) by simp,
      evaluate_cons_of_ne_nil _ _ _ (by simp [hSne]),
      evaluate_concat _ _ _ hSne]
    have h7 : (S ++ [s[r + 1]]).headD 0 = S.headD 0 := by
      cases hS : S with
      | nil => exact absurd hS hSne
      | cons u U => rfl
    rw [h7, hShead, hSlast]
    ring
  have hmid_a : evaluate cost (s[l - 1] :: S.reverse ++ [s[r + 1]]) =
      cost s[l - 1] s[r] + evaluate cost S + cost s[l] s[r + 1] := by
    rw [show s[l - 1] :: S.reverse ++ [s[r + 1]] =
        s[l - 1] :: (S.reverse ++ [s[r + 1]]) by simp,
      evaluate_cons_of_ne_nil _ _ _ (by simp [hSrevne]),
      evaluate_concat _ _ _ hSrevne]
    have h8 : (S.reverse ++ [s[r + 1]]).headD 0 = S.reverse.headD 0 := by
      cases hrev : S.reverse with
      | nil => exact absurd hrev hSrevne
      | cons u U => rfl
    have h9 : evaluate cost S.reverse = evaluate cost S := by
      rw [evaluate_reverse]
      have h10 : (fun i j => cost j i) = cost := by
        funext i j
        exact hsym j i
      rw [h10]
    rw [h8, hSrevhead, hSrevlast, h9]
    ring
  -- assemble
  rw [ha, hmid_a] 
  rw [hb, hmid_b]
  unfold calculateMoveCost
  simp only
  rw [List.getD_eq_getElem s 0 hl1, List.getD_eq_getElem s 0 hl,
    List.getD_eq_getElem s 0 hr, List.getD_eq_getElem s 0 hr1]
  ring

theorem C2_move_cost_symmetric_witness :
    (∀ i j, ((fun i j => ((i : ℚ) - (j : ℚ)) ^ 2) : Nat → Nat → ℚ) i j =
        ((fun i j => ((i : ℚ) - (j : ℚ)) ^ 2) : Nat → Nat → ℚ) j i) ∧
      1 ≤ (1 : Nat) ∧ 1 < 3 ∧ 3 + 1 < List.length [0, 1, 2, 3, 0] ∧
      calculateMoveCost (fun i j => ((i : ℚ) - (j : ℚ)) ^ 2) [0, 1, 2, 3, 0]
          ⟨1, 3, 0⟩ =
        evaluate (fun i j => ((i : ℚ) - (j : ℚ)) ^ 2)
            (applyMove [0, 1, 2, 3, 0] ⟨1, 3, 0⟩) -
          evaluate (fun i j => ((i : ℚ) - (j : ℚ)) ^ 2) [0, 1, 2, 3, 0] :=
  ⟨fun i j => by ring, by decide, by decide, by decide,
    C2_move_cost_symmetric (fun i j => ((i : ℚ) - (j : ℚ)) ^ 2) [0, 1, 2, 3, 0]
      ⟨1, 3, 0⟩ (fun i j => by ring) (by decide) (by decide) (by decide)⟩

/-! Preservation lemmas for the search-loop state: which solver fields each
sub-routine leaves untouched. -/

theorem adjustTabuTenure_bestValue (s : SolverState) (v : ℚ) :
    (adjustTabuTenure s v).bestValue = s.bestValue := by
  unfold adjustTabuTenure
  dsimp only
  split_ifs <;> rfl

theorem adjustTabuTenure_iteration (s : SolverState) (v : ℚ) :
    (adjustTabuTenure s v).iteration = s.iteration := by
  unfold adjustTabuTenure
  dsimp only
  split_ifs <;> rfl

theorem diversifySearch_bestValue (n : Nat) (s : SolverState) :
    (diversifySearch n s).bestValue = s.bestValue := rfl

theorem intensifyLoop_bestValue (tsp : TSP) (bv : ℚ) : ∀ (fuel i : Nat)
    (st : SolverState) (bl : List Nat) (blv : ℚ),
    (intensifyLoop tsp bv fuel i st bl blv).1.bestValue = st.bestValue := by
  intro fuel
  induction fuel with
  | zero => intro i st bl blv; rfl
  | succ fuel ih =>
    intro i st bl blv
    rw [intensifyLoop]
    dsimp only
    split
    · rfl
    · exact ih _ _ _ _

theorem intensifyLoop_iteration (tsp : TSP) (bv : ℚ) : ∀ (fuel i : Nat)
    (st : SolverState) (bl : List Nat) (blv : ℚ),
    (intensifyLoop tsp bv fuel i st bl blv).1.iteration = st.iteration := by
  intro fuel
  induction fuel with
  | zero => intro i st bl blv; rfl
  | succ fuel ih =>
    intro i st bl blv
    rw [intensifyLoop]
    dsimp only
    split
    · rfl
    · exact ih _ _ _ _

theorem intensifySearch_bestValue (tsp : TSP) (s : SolverState) :
    (intensifySearch tsp s).bestValue = s.bestValue := by
  unfold intensifySearch
  dsimp only
  split_ifs <;>
    exact intensifyLoop_bestValue tsp _ INTENSIFICATION_ITERATIONS 0 _ _ _

theorem intensifySearch_iteration (tsp : TSP) (s : SolverState) :
    (intensifySearch tsp s).iteration = s.iteration := by
  unfold intensifySearch
  dsimp only
  split_ifs <;>
    exact intensifyLoop_iteration tsp _ INTENSIFICATION_ITERATIONS 0 _ _ _

theorem normalPass_iteration (tsp : TSP) (s : SolverState) (move : Move) :
    (normalPass tsp s move).iteration = s.iteration + 1 := rfl

theorem normalPass_bestValue_le (tsp : TSP) (s : SolverState) (move : Move) :
    (normalPass tsp s move).bestValue ≤ s.bestValue := by
  unfold normalPass
  dsimp only
  rw [adjustTabuTenure_bestValue]
  split
  case isTrue h =>
    rw [intensifySearch_bestValue]
    exact le_of_lt (shouldIntensify_lt h)
  case isFalse h =>
    split
    · rw [diversifySearch_bestValue]
    · exact le_refl _

/-! The loop invariants behind the stopping-policy, iteration-bound and
monotonic-best claims. -/

theorem tabuLoop_bestValue_le (tsp : TSP) (maxIterations : Nat) :
    ∀ (fuel : Nat) (s : SolverState),
    (tabuLoop tsp maxIterations fuel s).bestValue ≤ s.bestValue := by
  intro fuel
  induction fuel with
  | zero => intro s; exact le_refl _
  | succ fuel ih =>
    intro s
    rw [tabuLoop]
    dsimp only
    split
    · split
      · exact ih _
      · exact le_refl _
    · split
      · exact normalPass_bestValue_le tsp s _
      · exact (ih _).trans (normalPass_bestValue_le tsp s _)

theorem tabuLoop_iteration_le (tsp : TSP) (maxIterations : Nat) :
    ∀ (fuel : Nat) (s : SolverState),
    (tabuLoop tsp maxIterations fuel s).iteration ≤
      max maxIterations (s.iteration + 1) := by
  intro fuel
  induction fuel with
  | zero => intro s; exact le_max_of_le_right (Nat.le_succ _)
  | succ fuel ih =>
    intro s
    rw [tabuLoop]
    dsimp only
    split
    · split
      · exact ih _
      · exact le_max_of_le_right (Nat.le_succ _)
    case isFalse hsent =>
      split
      case isTrue hstop =>
        rw [normalPass_iteration]
        exact le_max_of_le_right (le_refl _)
      case isFalse hstop =>
        have h1 := ih (normalPass tsp s
          (findBestNeighbor tsp s.seq s.tabu s.iteration))
        rw [normalPass_iteration] at h1 hstop
        omega

theorem tabuLoop_stopped (tsp : TSP) (maxIterations : Nat) :
    ∀ (fuel : Nat) (s : SolverState),
    2 * (maxIterations - s.iteration) + (cond s.phase 1 0) + 1 ≤ fuel →
    maxIterations ≤ (tabuLoop tsp maxIterations fuel s).iteration ∨
      (tsp.infinite ≤
          (findBestNeighbor tsp (tabuLoop tsp maxIterations fuel s).seq
            (tabuLoop tsp maxIterations fuel s).tabu
            (tabuLoop tsp maxIterations fuel s).iteration).cost_change ∧
        (tabuLoop tsp maxIterations fuel s).phase = false) := by
  intro fuel
  induction fuel with
  | zero => intro s h; omega
  | succ fuel ih =>
    intro s h
    rw [tabuLoop]
    dsimp only
    split
    case isTrue hsent =>
      split
      case isTrue hph =>
        refine ih _ ?_
        rw [hph] at h
        simp only [cond] at h ⊢
        omega
      case isFalse hph =>
        right
        refine ⟨hsent, ?_⟩
        simpa using hph
    case isFalse hsent =>
      split
      case isTrue hstop => exact Or.inl hstop
      case isFalse hstop =>
        refine ih _ ?_
        have h1 : (normalPass tsp s
            (findBestNeighbor tsp s.seq s.tabu s.iteration)).iteration =
            s.iteration + 1 := normalPass_iteration tsp s _
        rw [normalPass_iteration] at hstop
        have hc : cond (normalPass tsp s
            (findBestNeighbor tsp s.seq s.tabu s.iteration)).phase 1 0 ≤ 1 := by
          cases (normalPass tsp s
            (findBestNeighbor tsp s.seq s.tabu s.iteration)).phase <;> simp
        have hc' : cond s.phase 1 0 ≤ 1 := by cases s.phase <;> simp
        rw [h1]
        omega

/-! Loop-level claim theorems. -/

/-- C9: the tracked best value is non-increasing: every tabu-search loop step
can only lower bestValue (it is reassigned only when shouldIntensify holds,
which forces a strictly smaller current value), so the best value returned by
solveWithTabuSearch is at most the evaluation of the initial tour, and at
most every intermediate best value. -/
theorem C9_monotonic_best :
    (∀ (tsp : TSP) (maxIterations fuel : Nat) (s : SolverState),
      (tabuLoop tsp maxIterations fuel s).bestValue ≤ s.bestValue) ∧
    (∀ (tsp : TSP) (maxIterations : Nat) (initSeq : List Nat)
      (tenure0 iwi0 : Nat) (phase0 : Bool) (rng : List Nat),
      (solveWithTabuSearch tsp maxIterations initSeq tenure0 iwi0 phase0
          rng).bestValue ≤ evaluate tsp.cost initSeq) :=
  ⟨fun tsp mi fuel s => tabuLoop_bestValue_le tsp mi fuel s,
    fun tsp mi initSeq t0 i0 p0 rng =>
      tabuLoop_bestValue_le tsp mi (2 * mi + 2)
        (initState tsp initSeq t0 i0 p0 rng)⟩

/-- C5: solveWithTabuSearch terminates (it is a total function; the fuel
`2 * max_iterations + 2` is sufficient, as this theorem shows by
characterizing the final state), and the state it stops in satisfies: the
iteration count reached max_iterations, or the neighborhood of the final
state has no admissible move (findBestNeighbor returns the sentinel) with the
intensification-phase flag off — a sentinel seen while the flag was on only
clears the flag and the loop continues. -/
theorem C5_stopping_policy (tsp : TSP) (maxIterations : Nat)
    (initSeq : List Nat) (tenure0 iwi0 : Nat) (phase0 : Bool)
    (rng : List Nat) :
    maxIterations ≤ (solveWithTabuSearch tsp maxIterations initSeq tenure0
        iwi0 phase0 rng).iteration ∨
      (tsp.infinite ≤
          (findBestNeighbor tsp
            (solveWithTabuSearch tsp maxIterations initSeq tenure0 iwi0
              phase0 rng).seq
            (solveWithTabuSearch tsp maxIterations initSeq tenure0 iwi0
              phase0 rng).tabu
            (solveWithTabuSearch tsp maxIterations initSeq tenure0 iwi0
              phase0 rng).iteration).cost_change ∧
        (solveWithTabuSearch tsp maxIterations initSeq tenure0 iwi0 phase0
          rng).phase = false) := by
  refine tabuLoop_stopped tsp maxIterations (2 * maxIterations + 2)
    (initState tsp initSeq tenure0 iwi0 phase0 rng) ?_
  have hc : cond (initState tsp initSeq tenure0 iwi0 phase0 rng).phase 1 0 ≤ 1 := by
    cases (initState tsp initSeq tenure0 iwi0 phase0 rng).phase <;> simp
  have h0 : (initState tsp initSeq tenure0 iwi0 phase0 rng).iteration = 0 := rfl
  rw [h0]
  omega

/-- C6: counterexample — on the 4-node scenario instance with initial tour
`[0,2,1,3,0]` (cost 28) and max_iterations = 0, the run does not return
immediately: the loop body executes once, applies the improving move (1,2),
triggers intensification and returns best value 12 with best tour
`[0,1,2,3,0]`, different from the initial tour and its cost. -/
theorem C6_zero_iterations_counterexample :
    (solveWithTabuSearch tsp4 0 [0,2,1,3,0] 7 0 false []).bestValue = 12 ∧
      (solveWithTabuSearch tsp4 0 [0,2,1,3,0] 7 0 false []).bestSeq =
        [0,1,2,3,0] ∧
      evaluate tsp4.cost [0,2,1,3,0] = 28 ∧
      (solveWithTabuSearch tsp4 0 [0,2,1,3,0] 7 0 false []).iteration = 1 := by
  with_unfolding_all decide

/-- C6 amended: the iteration-count check sits at the end of the loop body,
so a run performs at most `max max_iterations 1` iterations: with
max_iterations = 0 the body still executes once (and may apply a move and
update the best solution) before the check stops the run. -/
theorem C6_at_most_one_iteration (tsp : TSP) (maxIterations : Nat)
    (initSeq : List Nat) (tenure0 iwi0 : Nat) (phase0 : Bool)
    (rng : List Nat) :
    (solveWithTabuSearch tsp maxIterations initSeq tenure0 iwi0 phase0
        rng).iteration ≤ max maxIterations 1 :=
  tabuLoop_iteration_le tsp maxIterations (2 * maxIterations + 2)
    (initState tsp initSeq tenure0 iwi0 phase0 rng)

/-- C7: counterexample — on the 2-node instance tsp2 (size < 3, a malformed
input per the claim) solveWithTabuSearch does not reject the input: it
initializes bestSol from the initial tour, runs the loop (the neighborhood is
empty, so the first iteration hits the sentinel) and returns normally with
bestSol set to the initial tour — no fail-fast, and the caller's bestSol is
modified. -/
theorem C7_no_rejection_counterexample :
    (solveWithTabuSearch tsp2 1000 [0,1,0] 7 0 false []).bestSeq = [0,1,0] ∧
      (solveWithTabuSearch tsp2 1000 [0,1,0] 7 0 false []).bestValue = 7 ∧
      (solveWithTabuSearch tsp2 1000 [0,1,0] 7 0 false []).iteration = 0 := by
  with_unfolding_all decide

/-- C7 amended: solveWithTabuSearch performs no input validation: any
instance with size 2 (size < 3) is accepted, bestSol is assigned the initial
tour before the loop, the empty neighborhood makes the first iteration hit
the sentinel, and the run returns normally with the initial tour and its
evaluation as the result. -/
theorem C7_small_instance_runs (cost : Nat → Nat → ℚ) (x : Nat)
    (maxIterations tenure0 iwi0 : Nat) (rng : List Nat) :
    (solveWithTabuSearch ⟨2, cost, 10 ^ 10⟩ maxIterations [0, x, 0] tenure0
        iwi0 false rng).bestSeq = [0, x, 0] ∧
      (solveWithTabuSearch ⟨2, cost, 10 ^ 10⟩ maxIterations [0, x, 0] tenure0
          iwi0 false rng).bestValue = evaluate cost [0, x, 0] ∧
      (solveWithTabuSearch ⟨2, cost, 10 ^ 10⟩ maxIterations [0, x, 0] tenure0
          iwi0 false rng).iteration = 0 := by
  have hkey : solveWithTabuSearch ⟨2, cost, 10 ^ 10⟩ maxIterations [0, x, 0]
      tenure0 iwi0 false rng =
      initState ⟨2, cost, 10 ^ 10⟩ [0, x, 0] tenure0 iwi0 false rng := by
    unfold solveWithTabuSearch
    rw [show 2 * maxIterations + 2 = (2 * maxIterations + 1) + 1 from rfl,
      tabuLoop]
    dsimp only
    rw [if_pos, if_neg]
    · simp [initState]
    · exact le_refl _
  rw [hkey]
  exact ⟨rfl, rfl, rfl⟩

end TabuTSP
